import Mathlib

/- Shallow embedding of the flashcard study app: JavaScript values,
   localStorage, the StorageManager (resume persistence), the CSV fetcher
   of word books, the Fisher-Yates shuffle, the game state machine
   (startGame / exitGame / nextQuestion / prevQuestion) and the swipe
   gesture decision.  Definitions are translated from the resumable
   variant of the source (the file defining StorageManager). -/

/-- Model of a JavaScript/JSON value as stored and manipulated by the app.
The undef constructor models the JavaScript undefined value (absent
fields); the remaining constructors cover every JSON value.  Numbers are
modelled as integers, which covers every number the app itself writes. -/
inductive JVal where
  | undef
  | null
  | bool (b : Bool)
  | num (n : Int)
  | str (s : String)
  | arr (elems : List JVal)
  | obj (fields : List (String × JVal))

namespace JVal

/-- Property access data.key on a JavaScript object: for objects produced
by JSON.parse the last binding of a key wins; on non-object values the
access yields undefined.  Access on null/undefined throws in JS; the one
caller that can hit that case (loadProgress) models the throw
explicitly. -/
def getField (v : JVal) (key : String) : JVal :=
  match v with
  | .obj fields => fields.foldl (fun acc f => if f.1 = key then f.2 else acc) JVal.undef
  | _ => JVal.undef

/-- Array.isArray. -/
def isArr : JVal → Bool
  | .arr _ => true
  | _ => false

/-- The JavaScript test typeof v === "number". -/
def isNum : JVal → Bool
  | .num _ => true
  | _ => false

/-- JavaScript truthiness of a value. -/
def jsTruthy : JVal → Bool
  | .undef => false
  | .null => false
  | .bool b => b
  | .num n => decide (n ≠ 0)
  | .str s => decide (s ≠ "")
  | .arr _ => true
  | .obj _ => true

/-- Reading a value the app expects to be an array (validated by
loadProgress before use). -/
def arrElems : JVal → List JVal
  | .arr es => es
  | _ => []

/-- Reading a value the app expects to be a number (validated by
loadProgress before use). -/
def asInt : JVal → Int
  | .num n => n
  | _ => 0

/-- Elements of a stored originalIndices array read back as natural
indices.  Records the app itself saves only hold such numbers. -/
def natElems : JVal → List Nat
  | .arr es => es.filterMap (fun e => match e with | .num n => some n.toNat | _ => none)
  | _ => []

end JVal

/-- A localStorage slot: either a string that parses as the given JSON
value, or a string on which JSON.parse throws. -/
inductive Payload where
  | malformed
  | json (v : JVal)

/-- The localStorage collaborator: string keys to optional stored
payloads. -/
def Store : Type := String → Option Payload

/-- An empty localStorage. -/
def Store.empty : Store := fun _ => none

/-- localStorage.setItem. -/
def Store.set (st : Store) (key : String) (p : Payload) : Store :=
  fun k => if k = key then some p else st k

/-- localStorage.removeItem. -/
def Store.remove (st : Store) (key : String) : Store :=
  fun k => if k = key then none else st k

namespace StorageManager

/-- StorageManager.getStorageKey. -/
def getStorageKey (bookId : String) : String := "guess_game_progress_" ++ bookId

/-- The JSON object that StorageManager.saveProgress serializes:
playlist, currentIndex, originalIndices (the selection set converted to
an array) and a timestamp. -/
def progressJ (playlist : List JVal) (currentIndex : Int)
    (originalIndices : List Nat) (now : Int) : JVal :=
  JVal.obj [("playlist", JVal.arr playlist),
            ("currentIndex", JVal.num currentIndex),
            ("originalIndices", JVal.arr (originalIndices.map (fun i => JVal.num (Int.ofNat i)))),
            ("timestamp", JVal.num now)]

/-- StorageManager.saveProgress: serializes the record and overwrites the
slot for the book id. -/
def saveProgress (st : Store) (bookId : String) (playlist : List JVal)
    (currentIndex : Int) (originalIndices : List Nat) (now : Int) : Store :=
  st.set (getStorageKey bookId) (Payload.json (progressJ playlist currentIndex originalIndices now))

/-- StorageManager.loadProgress: reads the slot and validates the parsed
record.  A JSON.parse failure is caught and yields null; property access
on a parsed null or undefined throws a TypeError which the same catch
turns into null; on other non-object values the accesses yield undefined
and the validation fails.  The validation requires a truthy playlist
field that is an array and a numeric currentIndex field. -/
def loadProgress (st : Store) (bookId : String) : Option JVal :=
  match st (getStorageKey bookId) with
  | none => none
  | some Payload.malformed => none
  | some (Payload.json data) =>
    match data with
    | .null => none
    | .undef => none
    | _ =>
      if !(data.getField "playlist").jsTruthy then none
      else if !(data.getField "playlist").isArr then none
      else if !(data.getField "currentIndex").isNum then none
      else some data

/-- StorageManager.clearProgress. -/
def clearProgress (st : Store) (bookId : String) : Store :=
  st.remove (getStorageKey bookId)

end StorageManager

/-- A parsed vocabulary entry.  The zhuyin (phonetic annotation column)
may be empty. -/
structure Word where
  term : String
  zhuyin : String
deriving DecidableEq

/-- Result of CSVFetcher.parse: the word rows plus the optional title
taken from the first row. -/
structure ParseResult where
  words : List Word
  title : Option String
deriving DecidableEq

/-- Substring search on character lists, used to model the JavaScript
String.prototype.includes test. -/
def subSearch (pat : List Char) : List Char → Bool
  | [] => pat.isPrefixOf ([] : List Char)
  | c :: rest => pat.isPrefixOf (c :: rest) || subSearch pat rest

/-- The JavaScript test s.includes(pat). -/
def strIncludes (s pat : String) : Bool := subSearch pat.data s.data

/-- Remove a single trailing carriage return, as the line-splitting regex
of the source consumes an optional carriage return before each newline. -/
def stripCR (s : String) : String := if s.endsWith "\r" then s.dropRight 1 else s

/-- Strip the optional carriage return before every newline boundary; the
final chunk has no following newline and keeps a trailing carriage
return, exactly as the split regex of the source behaves. -/
def stripCRs : List String → List String
  | [] => []
  | [l] => [l]
  | l :: ls => stripCR l :: stripCRs ls

/-- The line split csvText.split of the source with the optional-carriage
-return-then-newline separator. -/
def splitJsLines (t : String) : List String := stripCRs (t.splitOn "\n")

namespace CSVFetcher

/-- One step of the forEach body of CSVFetcher.parse, acting on the
accumulated (words, title) pair; the first component of the input pair is
the index of the line among the non-empty lines. -/
def parseStep (acc : List Word × Option String) (il : Nat × String) : List Word × Option String :=
  let parts := il.2.splitOn ","
  let term := (parts[0]?.getD "").trim
  let zhuyin := (parts[1]?.map String.trim).getD ""
  if term = "" then acc
  else if il.1 = 0 then
    if term.toLower ≠ "term" ∧ term.toLower ≠ "word" ∧
        ¬ strIncludes term.toLower "題目" ∧ ¬ strIncludes term.toLower "content"
    then (acc.1, some term)
    else acc
  else (acc.1 ++ [{ term := term, zhuyin := zhuyin }], acc.2)

/-- CSVFetcher.parse: split into lines, drop blank lines, then fold the
forEach body over the lines paired with their indices. -/
def parse (csvText : String) : ParseResult :=
  let lines := (splitJsLines csvText).filter (fun line => line.trim ≠ "")
  let res := lines.enum.foldl parseStep ([], none)
  { words := res.1, title := res.2 }

end CSVFetcher

/-- Modelled from the spec wording for the refinement statement of the
parser claim: whether the first field matches a known header token. -/
def isHeaderToken (t : String) : Bool :=
  t.toLower = "term" || t.toLower = "word" ||
    strIncludes t.toLower "題目" || strIncludes t.toLower "content"

/-- Modelled from the spec wording: the title contributed by the first
non-empty line; a line whose first field is empty is skipped, and a
header-token line contributes no title. -/
def titleOfLine (line : String) : Option String :=
  let term := ((line.splitOn ",")[0]?.getD "").trim
  if term = "" then none
  else if isHeaderToken term then none
  else some term

/-- Modelled from the spec wording: the word contributed by a non-first
non-empty line, built from its first two comma-delimited fields; a
missing second field yields an empty zhuyin and an empty first field
skips the row. -/
def rowWord (line : String) : Option Word :=
  let parts := line.splitOn ","
  let term := (parts[0]?.getD "").trim
  if term = "" then none
  else some { term := term, zhuyin := (parts[1]?.map String.trim).getD "" }

/-- Modelled from the spec wording of the parser contract, to be compared
with the parse function translated from the source: the first non-empty
line contributes only the title, every later non-empty line contributes
at most one word. -/
def parseSpecModel (csvText : String) : ParseResult :=
  match (splitJsLines csvText).filter (fun line => line.trim ≠ "") with
  | [] => { words := [], title := none }
  | l0 :: rest => { words := rest.filterMap rowWord, title := titleOfLine l0 }


/-- The JavaScript destructuring swap of two array slots used by the
shuffle; out-of-range indices never occur in the shuffle loop. -/
def swapAt2 {α : Type _} (a : List α) (i j : Nat) : List α :=
  match a[i]?, a[j]? with
  | some x, some y => (a.set i y).set j x
  | _, _ => a

/-- The while loop of the shuffle.  The counter is the value of
currentIndex after the decrement of an iteration; the stream f models the
successive draws of Math.floor applied to Math.random times the
pre-decrement counter, so the draw used at counter value ci is f ci, a
number between zero and ci for a genuine random source. -/
def shuffleLoop {α : Type _} (f : Nat → Nat) : List α → Nat → List α
  | a, 0 => a
  | a, ci + 1 => shuffleLoop f (swapAt2 a ci (f ci)) ci

/-- The Fisher-Yates shuffle of the source, parametric in the random
stream. -/
def shuffle {α : Type _} (f : Nat → Nat) (a : List α) : List α := shuffleLoop f a a.length

/-- The random draws are in range on the first n counter values. -/
def validOn (f : Nat → Nat) (n : Nat) : Prop := ∀ i, i < n → f i ≤ i

/-- Two random streams agree on the first n counter values. -/
def agreeOn (f g : Nat → Nat) (n : Nat) : Prop := ∀ i, i < n → f i = g i

/-- The uniform finite space of independent in-range draws for a list of
length n: one draw for each counter value, each uniform on its range. -/
abbrev ChoiceSeq (n : Nat) : Type := (i : Fin n) → Fin (i.1 + 1)

/-- A finite choice sequence read as a random stream. -/
def extChoice {n : Nat} (c : ChoiceSeq n) : Nat → Nat :=
  fun i => if h : i < n then (c ⟨i, h⟩).1 else 0

/-- A JavaScript Set built from a list of indices, with the elements
already taken as members: first-occurrence insertion order with
duplicates dropped. -/
def dedupFirstAux (seen : List Nat) : List Nat → List Nat
  | [] => []
  | x :: xs => if x ∈ seen then dedupFirstAux seen xs else x :: dedupFirstAux (x :: seen) xs

/-- A JavaScript Set built from a list of indices: first-occurrence
insertion order with duplicates dropped. -/
def dedupFirst (l : List Nat) : List Nat := dedupFirstAux [] l

/-- The in-memory game sub-state of the source. -/
structure GameSt where
  active : Bool
  playlist : List JVal
  currentIndex : Int

/-- The active book: its id and its word list.  Word objects are kept as
JavaScript values, as the app mixes them with values read back from
storage. -/
structure Book where
  id : String
  words : List JVal

/-- The in-memory application state relevant to the study session,
together with the persisted store and the log of alert messages raised.
The source guards exitGame on a present activeBook; every session the
claims quantify over has its active book open, so the book is a plain
field here. -/
structure AppState where
  activeBook : Book
  selectedIndices : List Nat
  game : GameSt
  store : Store
  alerts : List String

/-- JavaScript array indexing words[idx], yielding undefined when out of
range. -/
def jsGet (l : List JVal) (i : Nat) : JVal := (l[i]?).getD JVal.undef

/-- The alert text shown when a resume finds no stored progress. -/
def resumeFailAlert : String := "無法讀取存檔，將開始新遊戲。"

/-- The state-relevant part of updateWelcomeUI: resynchronize the
selection with the stored progress (or clear it when absent), as run when
the welcome screen is entered, in particular at the end of exitGame. -/
def updateWelcomeUI (s : AppState) (bookId : String) : AppState :=
  match StorageManager.loadProgress s.store bookId with
  | some progress =>
    if (progress.getField "originalIndices").jsTruthy then
      { s with selectedIndices := dedupFirst (progress.getField "originalIndices").natElems }
    else { s with selectedIndices := [] }
  | none => { s with selectedIndices := [] }

/-- The new-game branch of startGame, including the initial setting of
the active flag which the source performs before branching: reject an
empty selection, otherwise build the pool from the selected indices,
shuffle it, set the cursor to zero (the source first writes minus one and
immediately overwrites it with zero), clear the old progress and save the
fresh record. -/
def startGameFresh (s0 : AppState) (now : Int) (rand : Nat → Nat) : AppState :=
  let s := { s0 with game.active := true }
  if s.selectedIndices.length = 0 then s
  else
    let pool := s.selectedIndices.map (fun idx => jsGet s.activeBook.words idx)
    let playlist := shuffle rand pool
    let s := { s with game.playlist := playlist, game.currentIndex := 0 }
    let cleared := StorageManager.clearProgress s.store s.activeBook.id
    { s with store := StorageManager.saveProgress cleared s.activeBook.id playlist 0
                        s.selectedIndices now }

/-- startGame of the source.  The active flag is set before branching.
In resume mode a record accepted by loadProgress is installed verbatim;
when none loads, an alert is raised and the call falls back to the
new-game branch (the source calls itself with isResume false, and that
call runs exactly the new-game branch). -/
def startGame (s0 : AppState) (isResume : Bool) (now : Int) (rand : Nat → Nat) : AppState :=
  if isResume then
    let s := { s0 with game.active := true }
    match StorageManager.loadProgress s.store s.activeBook.id with
    | some progress =>
      { s with
          game := { active := true,
                    playlist := (progress.getField "playlist").arrElems,
                    currentIndex := (progress.getField "currentIndex").asInt },
          selectedIndices := dedupFirst (progress.getField "originalIndices").natElems }
    | none => startGameFresh { s with alerts := s.alerts ++ [resumeFailAlert] } now rand
  else startGameFresh s0 now rand

/-- exitGame of the source: drop the active flag, re-save the current
progress one final time, then refresh the welcome screen, which re-reads
the selection from the store. -/
def exitGame (s0 : AppState) (now : Int) : AppState :=
  let s := { s0 with game.active := false }
  let s := { s with store := StorageManager.saveProgress s.store s.activeBook.id
                      s.game.playlist s.game.currentIndex s.selectedIndices now }
  updateWelcomeUI s s.activeBook.id

/-- nextQuestion of the source: advance the cursor when it is not on the
last playlist slot, then persist; otherwise do nothing. -/
def nextQuestion (s : AppState) (now : Int) : AppState :=
  if s.game.currentIndex < (s.game.playlist.length : Int) - 1 then
    let s := { s with game.currentIndex := s.game.currentIndex + 1 }
    { s with store := StorageManager.saveProgress s.store s.activeBook.id
                        s.game.playlist s.game.currentIndex s.selectedIndices now }
  else s

/-- prevQuestion of the source: retreat the cursor when it is positive,
then persist; otherwise do nothing. -/
def prevQuestion (s : AppState) (now : Int) : AppState :=
  if 0 < s.game.currentIndex then
    let s := { s with game.currentIndex := s.game.currentIndex - 1 }
    { s with store := StorageManager.saveProgress s.store s.activeBook.id
                        s.game.playlist s.game.currentIndex s.selectedIndices now }
  else s

/-- The discrete outcome of a released swipe gesture. -/
inductive SwipeCmd where
  | reset
  | advance
  | retreat
deriving DecidableEq

/-- The decision of the released-gesture handler as a pure function of
the recorded origin and release abscissas and the game position: commit
to a navigation only past the displacement threshold of 100 units, only
rightward when not on the last card and only leftward when the cursor is
positive. -/
def swipeDecision (startX endX : Int) (currentIndex : Int) (playlistLen : Nat) : SwipeCmd :=
  let dx := endX - startX
  if 100 < |dx| then
    if 0 < dx then
      if currentIndex < (playlistLen : Int) - 1 then SwipeCmd.advance else SwipeCmd.reset
    else
      if 0 < currentIndex then SwipeCmd.retreat else SwipeCmd.reset
  else SwipeCmd.reset

/-- The persisted record for the active book agrees with the in-memory
playlist and cursor. -/
def ProgressSynced (s : AppState) : Prop :=
  ∃ v, StorageManager.loadProgress s.store s.activeBook.id = some v ∧
    v.getField "playlist" = JVal.arr s.game.playlist ∧
    v.getField "currentIndex" = JVal.num s.game.currentIndex

/-- A stored record whose playlist is a two-element array and whose
cursor is five: well-formed for loadProgress but out of range. -/
def outOfRangeRecord : JVal :=
  JVal.obj [("playlist", JVal.arr [JVal.str "a", JVal.str "b"]),
            ("currentIndex", JVal.num 5),
            ("originalIndices", JVal.arr [JVal.num 0, JVal.num 1]),
            ("timestamp", JVal.num 0)]

/-- A store holding only the out-of-range record for one book. -/
def outOfRangeStore : Store :=
  Store.set Store.empty (StorageManager.getStorageKey "b") (Payload.json outOfRangeRecord)

/-- A session on that book about to resume from the out-of-range
record. -/
def outOfRangeState : AppState :=
  { activeBook := { id := "b", words := [JVal.str "a", JVal.str "b"] },
    selectedIndices := [],
    game := { active := false, playlist := [], currentIndex := -1 },
    store := outOfRangeStore,
    alerts := [] }
/-- A tiny book used by the concrete witness sessions. -/
def wBook : Book := { id := "bk", words := [JVal.str "w0", JVal.str "w1", JVal.str "w2"] }

/-- A session on that book with an empty selection and an inactive game. -/
def wStateEmptySel : AppState :=
  { activeBook := wBook, selectedIndices := [],
    game := { active := false, playlist := [], currentIndex := -1 },
    store := Store.empty, alerts := [] }

/-- A session on that book with a two-element selection. -/
def wStateSel : AppState :=
  { wStateEmptySel with selectedIndices := [0, 2] }

/-- An active one-card session whose progress has just been saved. -/
def wStateSynced : AppState :=
  { activeBook := wBook, selectedIndices := [0],
    game := { active := true, playlist := [JVal.str "w0"], currentIndex := 0 },
    store := StorageManager.saveProgress Store.empty "bk" [JVal.str "w0"] 0 [0] 7,
    alerts := [] }

theorem getField_progressJ_playlist (pl : List JVal) (ci : Int) (oi : List Nat) (now : Int) :
    (StorageManager.progressJ pl ci oi now).getField "playlist" = JVal.arr pl := rfl

theorem getField_progressJ_currentIndex (pl : List JVal) (ci : Int) (oi : List Nat) (now : Int) :
    (StorageManager.progressJ pl ci oi now).getField "currentIndex" = JVal.num ci := rfl

theorem getField_progressJ_originalIndices (pl : List JVal) (ci : Int) (oi : List Nat) (now : Int) :
    (StorageManager.progressJ pl ci oi now).getField "originalIndices"
      = JVal.arr (oi.map (fun i => JVal.num (Int.ofNat i))) := rfl

theorem loadProgress_saveProgress (st : Store) (b : String) (pl : List JVal)
    (ci : Int) (oi : List Nat) (now : Int) :
    StorageManager.loadProgress (StorageManager.saveProgress st b pl ci oi now) b
      = some (StorageManager.progressJ pl ci oi now) := by
  simp [StorageManager.loadProgress, StorageManager.saveProgress, Store.set,
        StorageManager.progressJ, JVal.getField, JVal.jsTruthy, JVal.isArr, JVal.isNum]

theorem natElems_map_num (oi : List Nat) :
    (JVal.arr (oi.map (fun i => JVal.num (Int.ofNat i)))).natElems = oi := by
  induction oi with
  | nil => rfl
  | cons x xs ih => simp only [JVal.natElems, List.map_cons, List.filterMap_cons] at ih ⊢; simpa [Int.toNat_ofNat] using ih


theorem foldl_parseStep_from_one (rest : List String) :
    ∀ (k : Nat) (acc : List Word × Option String), 1 ≤ k →
      (List.enumFrom k rest).foldl CSVFetcher.parseStep acc
        = (acc.1 ++ rest.filterMap rowWord, acc.2) := by
  induction rest with
  | nil => intro k acc _; simp
  | cons l ls ih =>
    intro k acc hk
    rw [List.enumFrom_cons]
    simp only [List.foldl_cons]
    have hk0 : k ≠ 0 := by omega
    rw [List.filterMap_cons]
    by_cases hterm : (((l.splitOn ",")[0]?.getD "").trim) = ""
    · have hstep : CSVFetcher.parseStep acc (k, l) = acc := by
        simp [CSVFetcher.parseStep, hterm]
      have hrow : rowWord l = none := by
        simp [rowWord, hterm]
      rw [hstep, hrow, ih (k + 1) acc (by omega)]
    · have hstep : CSVFetcher.parseStep acc (k, l)
          = (acc.1 ++ [{ term := ((l.splitOn ",")[0]?.getD "").trim,
                         zhuyin := ((l.splitOn ",")[1]?.map String.trim).getD "" }], acc.2) := by
        simp [CSVFetcher.parseStep, hterm, hk0]
      have hrow : rowWord l = some { term := ((l.splitOn ",")[0]?.getD "").trim,
                                     zhuyin := ((l.splitOn ",")[1]?.map String.trim).getD "" } := by
        simp [rowWord, hterm]
      rw [hstep, hrow, ih (k + 1) _ (by omega)]
      simp

theorem list_set_self {α : Type _} : ∀ (l : List α) (i : Nat) (h : i < l.length), l.set i l[i] = l
  | _ :: _, 0, _ => rfl
  | a :: t, i + 1, h => by
    have hi : i < t.length := by simpa using h
    show a :: t.set i t[i] = a :: t
    rw [list_set_self t i hi]

theorem get_cons_set_perm {α : Type _} : ∀ (l : List α) (j : Nat) (x : α) (h : j < l.length),
    (l[j] :: l.set j x).Perm (x :: l)
  | a :: t, 0, x, _ => by
    show (a :: x :: t).Perm (x :: a :: t)
    exact List.Perm.swap x a t
  | a :: t, j + 1, x, h => by
    have hj : j < t.length := by simpa using h
    show (t[j] :: a :: t.set j x).Perm (x :: a :: t)
    exact (List.Perm.swap a t[j] (t.set j x)).trans
      (((get_cons_set_perm t j x hj).cons a).trans (List.Perm.swap x a t))

theorem swapAt2_eq (a : List α) (i j : Nat) (hi : i < a.length) (hj : j < a.length) :
    swapAt2 a i j = (a.set i a[j]).set j a[i] := by
  unfold swapAt2
  rw [List.getElem?_eq_getElem hi, List.getElem?_eq_getElem hj]

theorem swapAt2_length {α : Type _} (a : List α) (i j : Nat) :
    (swapAt2 a i j).length = a.length := by
  unfold swapAt2
  cases h1 : a[i]? <;> cases h2 : a[j]? <;> simp

theorem swapAt2_perm {α : Type _} (a : List α) (i j : Nat) (hi : i < a.length)
    (hj : j < a.length) : (swapAt2 a i j).Perm a := by
  rw [swapAt2_eq a i j hi hj]
  by_cases hij : i = j
  · subst hij
    rw [list_set_self a i hi, list_set_self a i hi]
  · have hj' : j < (a.set i a[j]).length := by simpa using hj
    have hget : (a.set i a[j])[j] = a[j] := List.getElem_set_ne hij hj'
    have h1 : ((a.set i a[j])[j] :: (a.set i a[j]).set j a[i]).Perm (a[i] :: a.set i a[j]) :=
      get_cons_set_perm (a.set i a[j]) j a[i] hj'
    have h2 : (a[i] :: a.set i a[j]).Perm (a[j] :: a) := get_cons_set_perm a i a[j] hi
    rw [hget] at h1
    exact (h1.trans h2).cons_inv

theorem getElem?_swapAt2_ne {α : Type _} (a : List α) (i j k : Nat) (hki : k ≠ i) (hkj : k ≠ j) :
    (swapAt2 a i j)[k]? = a[k]? := by
  unfold swapAt2
  cases h1 : a[i]? <;> cases h2 : a[j]? <;>
    simp [List.getElem?_set_ne (Ne.symm hkj), List.getElem?_set_ne (Ne.symm hki)]

theorem getElem?_swapAt2_fst {α : Type _} (a : List α) (i j : Nat) (hi : i < a.length)
    (hj : j < a.length) : (swapAt2 a i j)[i]? = a[j]? := by
  rw [swapAt2_eq a i j hi hj]
  by_cases hij : i = j
  · subst hij
    rw [list_set_self a i hi]
    rw [List.getElem?_set_self (by simpa using hi), List.getElem?_eq_getElem hi]
  · rw [List.getElem?_set_ne (Ne.symm hij)]
    rw [List.getElem?_set_self (by simpa using hi), List.getElem?_eq_getElem hj]

theorem shuffleLoop_length {α : Type _} (f : Nat → Nat) :
    ∀ (ci : Nat) (a : List α), (shuffleLoop f a ci).length = a.length
  | 0, _ => rfl
  | ci + 1, a => by
    show (shuffleLoop f (swapAt2 a ci (f ci)) ci).length = a.length
    rw [shuffleLoop_length f ci, swapAt2_length]

theorem shuffleLoop_congr {α : Type _} (f g : Nat → Nat) :
    ∀ (ci : Nat) (a : List α), agreeOn f g ci → shuffleLoop f a ci = shuffleLoop g a ci
  | 0, _, _ => rfl
  | ci + 1, a, h => by
    show shuffleLoop f (swapAt2 a ci (f ci)) ci = shuffleLoop g (swapAt2 a ci (g ci)) ci
    rw [h ci (Nat.lt_succ_self ci)]
    exact shuffleLoop_congr f g ci _ (fun i hi => h i (Nat.lt_succ_of_lt hi))

theorem shuffleLoop_getElem?_ge {α : Type _} (f : Nat → Nat) :
    ∀ (ci : Nat) (a : List α), validOn f ci →
      ∀ k, ci ≤ k → (shuffleLoop f a ci)[k]? = a[k]?
  | 0, _, _, _, _ => rfl
  | ci + 1, a, hv, k, hk => by
    show (shuffleLoop f (swapAt2 a ci (f ci)) ci)[k]? = a[k]?
    rw [shuffleLoop_getElem?_ge f ci _ (fun i hi => hv i (Nat.lt_succ_of_lt hi)) k (by omega)]
    exact getElem?_swapAt2_ne a ci (f ci) k (by omega)
      (by have := hv ci (Nat.lt_succ_self ci); omega)

theorem shuffleLoop_perm {α : Type _} (f : Nat → Nat) :
    ∀ (ci : Nat) (a : List α), ci ≤ a.length → validOn f ci → (shuffleLoop f a ci).Perm a
  | 0, _, _, _ => List.Perm.refl _
  | ci + 1, a, hci, hv => by
    show (shuffleLoop f (swapAt2 a ci (f ci)) ci).Perm a
    have hfci : f ci ≤ ci := hv ci (Nat.lt_succ_self ci)
    have h1 : (swapAt2 a ci (f ci)).Perm a := swapAt2_perm a ci (f ci) (by omega) (by omega)
    have h2 : (shuffleLoop f (swapAt2 a ci (f ci)) ci).Perm (swapAt2 a ci (f ci)) :=
      shuffleLoop_perm f ci _ (by rw [swapAt2_length]; omega)
        (fun i hi => hv i (Nat.lt_succ_of_lt hi))
    exact h2.trans h1

theorem drop_eq_of_getElem?_eq {α : Type _} (l₁ l₂ : List α) (n : Nat)
    (h : ∀ k, n ≤ k → l₁[k]? = l₂[k]?) : l₁.drop n = l₂.drop n := by
  apply List.ext_getElem?
  intro m
  rw [List.getElem?_drop, List.getElem?_drop]
  exact h (n + m) (by omega)

theorem perm_take_of_perm_of_drop_eq {α : Type _} (l₁ l₂ : List α) (n : Nat)
    (hp : l₁.Perm l₂) (hd : l₁.drop n = l₂.drop n) : (l₁.take n).Perm (l₂.take n) := by
  rw [← List.perm_append_right_iff (l₁.drop n)]
  nth_rewrite 2 [hd]
  rw [List.take_append_drop, List.take_append_drop]
  exact hp

theorem getElem?_take_lt {α : Type _} (l : List α) (n m : Nat) (h : m < n) :
    (l.take n)[m]? = l[m]? := by
  rw [List.getElem?_take]
  exact if_pos h

theorem mem_take_exists {α : Type _} (l : List α) (n : Nat) (x : α) (h : x ∈ l.take n) :
    ∃ r, r < n ∧ l[r]? = some x := by
  obtain ⟨r, hr, hval⟩ := List.mem_iff_getElem.mp h
  have hrn : r < n := by
    have h2 := hr
    rw [List.length_take] at h2
    omega
  refine ⟨r, hrn, ?_⟩
  rw [← getElem?_take_lt l n r hrn]
  exact List.getElem?_eq_some.mpr ⟨hr, hval⟩

theorem nodup_take_inj {α : Type _} (a : List α) (n r s : Nat)
    (hnd : (a.take n).Nodup) (hr : r < n) (hs : s < n) (hr2 : r < a.length) (hs2 : s < a.length)
    (heq : a[r]? = a[s]?) : r = s := by
  have hrt : r < (a.take n).length := by rw [List.length_take]; omega
  have hst : s < (a.take n).length := by rw [List.length_take]; omega
  have h1 : (a.take n)[r]? = (a.take n)[s]? := by
    rw [getElem?_take_lt a n r hr, getElem?_take_lt a n s hs]
    exact heq
  rw [List.getElem?_eq_getElem hrt, List.getElem?_eq_getElem hst] at h1
  exact (List.Nodup.getElem_inj_iff hnd).mp (Option.some.inj h1)

theorem swapAt2_take_perm {α : Type _} (a : List α) (ci r : Nat) (hci : ci < a.length)
    (hr : r ≤ ci) : ((swapAt2 a ci r).take (ci + 1)).Perm (a.take (ci + 1)) := by
  apply perm_take_of_perm_of_drop_eq
  · exact swapAt2_perm a ci r hci (by omega)
  · apply drop_eq_of_getElem?_eq
    intro k hk
    exact getElem?_swapAt2_ne a ci r k (by omega) (by omega)

theorem shuffleLoop_exists_choices {α : Type _} :
    ∀ (ci : Nat) (a p : List α), ci ≤ a.length → p.length = a.length →
      (∀ k, ci ≤ k → p[k]? = a[k]?) → (p.take ci).Perm (a.take ci) →
      ∃ f, validOn f ci ∧ shuffleLoop f a ci = p := by
  intro ci
  induction ci with
  | zero =>
    intro a p _ _ hagree _
    exact ⟨fun _ => 0, fun i hi => absurd hi (Nat.not_lt_zero i),
      (List.ext_getElem? (fun n => hagree n (Nat.zero_le n))).symm⟩
  | succ ci ih =>
    intro a p hci hlen hagree hperm
    have hcia : ci < a.length := by omega
    have hcip : ci < p.length := by omega
    have hpmem : p[ci] ∈ p.take (ci + 1) := by
      have hlt : ci < (p.take (ci + 1)).length := by rw [List.length_take]; omega
      have he : (p.take (ci + 1))[ci]? = some p[ci] := by
        rw [getElem?_take_lt p (ci + 1) ci (by omega)]
        exact List.getElem?_eq_getElem hcip
      have h2 := List.getElem?_eq_getElem hlt
      rw [he] at h2
      exact List.mem_iff_getElem.mpr ⟨ci, hlt, (Option.some.inj h2).symm⟩
    have hamem : p[ci] ∈ a.take (ci + 1) := hperm.mem_iff.mp hpmem
    obtain ⟨r, hrci, hrval⟩ := mem_take_exists a (ci + 1) p[ci] hamem
    have hrle : r ≤ ci := by omega
    have hra : r < a.length := by omega
    have hlen2 : (swapAt2 a ci r).length = a.length := swapAt2_length a ci r
    have hge2 : ∀ k, ci + 1 ≤ k → (swapAt2 a ci r)[k]? = a[k]? :=
      fun k hk => getElem?_swapAt2_ne a ci r k (by omega) (by omega)
    have hfst : (swapAt2 a ci r)[ci]? = a[r]? := getElem?_swapAt2_fst a ci r hcia hra
    have hagree2 : ∀ k, ci ≤ k → p[k]? = (swapAt2 a ci r)[k]? := by
      intro k hk
      rcases Nat.eq_or_lt_of_le hk with heq | hlt
    
      · rw [← heq, hfst, hrval]
        exact List.getElem?_eq_getElem hcip
      · rw [hge2 k (by omega)]
        exact hagree k (by omega)
    have htakeperm : (p.take ci).Perm ((swapAt2 a ci r).take ci) := by
      have hta : ((swapAt2 a ci r).take (ci + 1)).Perm (a.take (ci + 1)) :=
        swapAt2_take_perm a ci r hcia hrle
      have hpt : (p.take (ci + 1)).Perm ((swapAt2 a ci r).take (ci + 1)) := hperm.trans hta.symm
      have hlastp : p.take (ci + 1) = p.take ci ++ [p[ci]] := by
        rw [List.take_succ, List.getElem?_eq_getElem hcip]
        rfl
      have hlasta : (swapAt2 a ci r).take (ci + 1) = (swapAt2 a ci r).take ci ++ [p[ci]] := by
        rw [List.take_succ, hfst, hrval]
        rfl
      rw [hlastp, hlasta] at hpt
      exact (List.perm_append_right_iff [p[ci]]).mp hpt
    obtain ⟨f0, hf0v, hf0⟩ := ih (swapAt2 a ci r) p (by omega) (by omega)
      (fun k hk => hagree2 k hk) htakeperm
    refine ⟨fun i => if i = ci then r else f0 i, ?_, ?_⟩
    · intro i hi
      by_cases hic : i = ci
      · rw [hic]
        show (if ci = ci then r else f0 ci) ≤ ci
        rw [if_pos rfl]
        exact hrle
      · simp only [if_neg hic]
        exact hf0v i (by omega)
    · have hfc : (fun i => if i = ci then r else f0 i) ci = r := by simp
      show shuffleLoop (fun i => if i = ci then r else f0 i)
        (swapAt2 a ci ((fun i => if i = ci then r else f0 i) ci)) ci = p
      rw [hfc]
      rw [shuffleLoop_congr (fun i => if i = ci then r else f0 i) f0 ci (swapAt2 a ci r)
        (fun i hi => by simp [Nat.ne_of_lt hi])]
      exact hf0

theorem shuffleLoop_choices_eq {α : Type _} :
    ∀ (ci : Nat) (a : List α) (f g : Nat → Nat), ci ≤ a.length → (a.take ci).Nodup →
      validOn f ci → validOn g ci →
      shuffleLoop f a ci = shuffleLoop g a ci → agreeOn f g ci := by
  intro ci
  induction ci with
  | zero =>
    intro a f g _ _ _ _ _ i hi
    exact absurd hi (Nat.not_lt_zero i)
  | succ ci ih =>
    intro a f g hci hnd hvf hvg heq
    have hcia : ci < a.length := by omega
    have hfr : f ci ≤ ci := hvf ci (Nat.lt_succ_self ci)
    have hgr : g ci ≤ ci := hvg ci (Nat.lt_succ_self ci)
    have heq' : shuffleLoop f (swapAt2 a ci (f ci)) ci
        = shuffleLoop g (swapAt2 a ci (g ci)) ci := heq
    have h1 : (shuffleLoop f (swapAt2 a ci (f ci)) ci)[ci]? = a[f ci]? := by
      rw [shuffleLoop_getElem?_ge f ci _ (fun i hi => hvf i (Nat.lt_succ_of_lt hi)) ci
        (Nat.le_refl ci)]
      exact getElem?_swapAt2_fst a ci (f ci) hcia (by omega)
    have h2 : (shuffleLoop g (swapAt2 a ci (g ci)) ci)[ci]? = a[g ci]? := by
      rw [shuffleLoop_getElem?_ge g ci _ (fun i hi => hvg i (Nat.lt_succ_of_lt hi)) ci
        (Nat.le_refl ci)]
      exact getElem?_swapAt2_fst a ci (g ci) hcia (by omega)
    have hav : a[f ci]? = a[g ci]? := by
      rw [← h1, ← h2, heq']
    have hrs : f ci = g ci :=
      nodup_take_inj a (ci + 1) (f ci) (g ci) hnd (by omega) (by omega) (by omega) (by omega) hav
    have hnd2 : ((swapAt2 a ci (f ci)).take ci).Nodup := by
      have hta : ((swapAt2 a ci (f ci)).take (ci + 1)).Perm (a.take (ci + 1)) :=
        swapAt2_take_perm a ci (f ci) hcia hfr
      have hnd3 : ((swapAt2 a ci (f ci)).take (ci + 1)).Nodup := hta.symm.nodup hnd
      have hmin : ci ⊓ (ci + 1) = ci := by omega
      have hsplit : (swapAt2 a ci (f ci)).take ci
          = ((swapAt2 a ci (f ci)).take (ci + 1)).take ci := by
        rw [List.take_take, hmin]
      rw [hsplit]
      exact List.Nodup.sublist (List.take_sublist ci _) hnd3
    have heq2 : shuffleLoop f (swapAt2 a ci (f ci)) ci
        = shuffleLoop g (swapAt2 a ci (f ci)) ci := by
      rw [← hrs] at heq'
      exact heq'
    have ih' := ih (swapAt2 a ci (f ci)) f g (by rw [swapAt2_length]; omega) hnd2
      (fun i hi => hvf i (Nat.lt_succ_of_lt hi)) (fun i hi => hvg i (Nat.lt_succ_of_lt hi)) heq2
    intro i hi
    rcases Nat.lt_succ_iff_lt_or_eq.mp hi with hlt | heqi
    · exact ih' i hlt
    · rw [heqi]
      exact hrs

theorem validOn_extChoice {n : Nat} (c : ChoiceSeq n) : validOn (extChoice c) n := by
  intro i hi
  simp only [extChoice]
  rw [dif_pos hi]
  exact Nat.lt_succ_iff.mp (c ⟨i, hi⟩).2

/-- C3: the shuffle function is the in-place Fisher-Yates (Knuth) loop:
with the random source modelled as the stream of draws, the iteration at
counter i swaps slot i with a slot drawn uniformly from the range zero to
i, and over the uniform finite space of independent in-range draw
sequences every permutation of a duplicate-free input arises from exactly
one draw sequence, hence each with equal probability (unlike a biased
random-comparator sort, whose outcome counts would differ between
permutations). -/
theorem claim_C3_shuffle_fisher_yates_uniform {α : Type _} [DecidableEq α] (l : List α)
    (hl : l.Nodup) (p : List α) (hp : p.Perm l) :
    (∀ c : ChoiceSeq l.length, (shuffle (extChoice c) l).Perm l) ∧
    (Finset.univ.filter
        (fun c : ChoiceSeq l.length => shuffle (extChoice c) l = p)).card = 1 := by
  constructor
  · intro c
    exact shuffleLoop_perm (extChoice c) l.length l (Nat.le_refl _) (validOn_extChoice c)
  · have huniq : ∀ c c' : ChoiceSeq l.length,
        shuffle (extChoice c) l = p → shuffle (extChoice c') l = p → c = c' := by
      intro c c' hc hc'
      have hagr : agreeOn (extChoice c) (extChoice c') l.length := by
        apply shuffleLoop_choices_eq l.length l (extChoice c) (extChoice c') (Nat.le_refl _)
          (by rw [List.take_length]; exact hl) (validOn_extChoice c) (validOn_extChoice c')
        show shuffle (extChoice c) l = shuffle (extChoice c') l
        rw [hc, hc']
      funext i
      apply Fin.ext
      have h2 := hagr i.1 i.2
      simp only [extChoice] at h2
      rw [dif_pos i.2, dif_pos i.2] at h2
      exact h2
    obtain ⟨f, hfv, hf⟩ := shuffleLoop_exists_choices l.length l p (Nat.le_refl _)
      hp.length_eq
      (fun k hk => by
        have h1 : p.length ≤ k := by rw [hp.length_eq]; exact hk
        rw [List.getElem?_eq_none h1, List.getElem?_eq_none hk])
      (by
        rw [List.take_length]
        rw [← hp.length_eq, List.take_length]
        exact hp)
    have hmem0 : shuffle (extChoice (fun i => ⟨f i.1, Nat.lt_succ_of_le (hfv i.1 i.2)⟩)) l
        = p := by
      show shuffleLoop _ l l.length = p
      rw [shuffleLoop_congr _ f l.length l (fun i hi => by
        simp only [extChoice]
        rw [dif_pos hi])]
      exact hf
    refine Finset.card_eq_one.mpr ⟨fun i => ⟨f i.1, Nat.lt_succ_of_le (hfv i.1 i.2)⟩, ?_⟩
    rw [Finset.eq_singleton_iff_unique_mem]
    refine ⟨Finset.mem_filter.mpr ⟨Finset.mem_univ _, hmem0⟩, ?_⟩
    intro c hc
    exact huniq c _ (Finset.mem_filter.mp hc).2 hmem0

/-- Witness for C3 at the concrete duplicate-free input zero-one and the
target permutation one-zero. -/
theorem claim_C3_witness :
    ([0, 1] : List Nat).Nodup ∧ ([1, 0] : List Nat).Perm [0, 1] ∧
    (Finset.univ.filter
        (fun c : ChoiceSeq ([0, 1] : List Nat).length =>
          shuffle (extChoice c) [0, 1] = [1, 0])).card = 1 :=
  ⟨by decide, by decide,
    (claim_C3_shuffle_fisher_yates_uniform [0, 1] (by decide) [1, 0] (by decide)).2⟩

theorem updateWelcomeUI_proj (s : AppState) (b : String) :
    (updateWelcomeUI s b).store = s.store ∧ (updateWelcomeUI s b).game = s.game ∧
    (updateWelcomeUI s b).activeBook = s.activeBook ∧ (updateWelcomeUI s b).alerts = s.alerts := by
  unfold updateWelcomeUI
  cases StorageManager.loadProgress s.store b with
  | none => exact ⟨rfl, rfl, rfl, rfl⟩
  | some progress =>
    dsimp only
    split
    · exact ⟨rfl, rfl, rfl, rfl⟩
    · exact ⟨rfl, rfl, rfl, rfl⟩

theorem nextQuestion_eq_pos (s : AppState) (now : Int)
    (h : s.game.currentIndex < (s.game.playlist.length : Int) - 1) :
    nextQuestion s now = { s with
      game := { s.game with currentIndex := s.game.currentIndex + 1 },
      store := StorageManager.saveProgress s.store s.activeBook.id s.game.playlist
        (s.game.currentIndex + 1) s.selectedIndices now } := by
  unfold nextQuestion
  rw [if_pos h]

theorem nextQuestion_eq_neg (s : AppState) (now : Int)
    (h : ¬ s.game.currentIndex < (s.game.playlist.length : Int) - 1) :
    nextQuestion s now = s := by
  unfold nextQuestion
  rw [if_neg h]

theorem prevQuestion_eq_pos (s : AppState) (now : Int) (h : 0 < s.game.currentIndex) :
    prevQuestion s now = { s with
      game := { s.game with currentIndex := s.game.currentIndex - 1 },
      store := StorageManager.saveProgress s.store s.activeBook.id s.game.playlist
        (s.game.currentIndex - 1) s.selectedIndices now } := by
  unfold prevQuestion
  rw [if_pos h]

theorem prevQuestion_eq_neg (s : AppState) (now : Int) (h : ¬ 0 < s.game.currentIndex) :
    prevQuestion s now = s := by
  unfold prevQuestion
  rw [if_neg h]

theorem startGameFresh_eq_zero (s : AppState) (now : Int) (rand : Nat → Nat)
    (h : s.selectedIndices.length = 0) :
    startGameFresh s now rand = { s with game := { s.game with active := true } } := by
  unfold startGameFresh
  dsimp only
  rw [if_pos h]

theorem startGameFresh_eq_pos (s : AppState) (now : Int) (rand : Nat → Nat)
    (h : ¬ s.selectedIndices.length = 0) :
    startGameFresh s now rand = { s with
      game := { active := true,
                playlist := shuffle rand (s.selectedIndices.map (fun idx => jsGet s.activeBook.words idx)),
                currentIndex := 0 },
      store := StorageManager.saveProgress
        (StorageManager.clearProgress s.store s.activeBook.id) s.activeBook.id
        (shuffle rand (s.selectedIndices.map (fun idx => jsGet s.activeBook.words idx))) 0
        s.selectedIndices now } := by
  unfold startGameFresh
  dsimp only
  rw [if_neg h]

theorem startGame_false_eq (s : AppState) (now : Int) (rand : Nat → Nat) :
    startGame s false now rand = startGameFresh s now rand := by
  unfold startGame
  rfl

theorem startGame_resume_eq (s : AppState) (now : Int) (rand : Nat → Nat) :
    startGame s true now rand =
      (match StorageManager.loadProgress s.store s.activeBook.id with
       | some progress =>
         { s with
             game := { active := true,
                       playlist := (progress.getField "playlist").arrElems,
                       currentIndex := (progress.getField "currentIndex").asInt },
             selectedIndices := dedupFirst (progress.getField "originalIndices").natElems }
       | none =>
         startGameFresh { s with game := { s.game with active := true },
                                 alerts := s.alerts ++ [resumeFailAlert] } now rand) := by
  unfold startGame
  rfl

theorem startGame_true_some (s : AppState) (now : Int) (rand : Nat → Nat) (v : JVal)
    (h : StorageManager.loadProgress s.store s.activeBook.id = some v) :
    startGame s true now rand =
      { s with
          game := { active := true,
                    playlist := (v.getField "playlist").arrElems,
                    currentIndex := (v.getField "currentIndex").asInt },
          selectedIndices := dedupFirst (v.getField "originalIndices").natElems } := by
  have h0 := startGame_resume_eq s now rand
  rw [h] at h0
  exact h0

theorem startGame_true_none (s : AppState) (now : Int) (rand : Nat → Nat)
    (h : StorageManager.loadProgress s.store s.activeBook.id = none) :
    startGame s true now rand =
      startGameFresh { s with game := { s.game with active := true },
                              alerts := s.alerts ++ [resumeFailAlert] } now rand := by
  have h0 := startGame_resume_eq s now rand
  rw [h] at h0
  exact h0

theorem exitGame_eq (s : AppState) (now : Int) :
    exitGame s now = updateWelcomeUI
      { s with game := { s.game with active := false },
               store := StorageManager.saveProgress s.store s.activeBook.id s.game.playlist
                 s.game.currentIndex s.selectedIndices now }
      s.activeBook.id := by
  unfold exitGame
  rfl

theorem startGameFresh_alerts (s : AppState) (now : Int) (rand : Nat → Nat) :
    (startGameFresh s now rand).alerts = s.alerts := by
  by_cases h : s.selectedIndices.length = 0
  · rw [startGameFresh_eq_zero s now rand h]
  · rw [startGameFresh_eq_pos s now rand h]

/-- C1: for every active session, after an advance, a retreat, a new-game
start on a non-empty selection, or an exit on the active book, loading
the progress for that book id returns a record whose cursor equals the
in-memory game cursor and whose playlist equals the in-memory playlist
(advance and retreat keep the agreement they found, since their boundary
cases change neither the state nor the store; a fresh start and an exit
establish it outright). -/
theorem claim_C1_progress_persistence (s : AppState) (now : Int) (rand : Nat → Nat) :
    (ProgressSynced s → ProgressSynced (nextQuestion s now)) ∧
    (ProgressSynced s → ProgressSynced (prevQuestion s now)) ∧
    (s.selectedIndices ≠ [] → ProgressSynced (startGame s false now rand)) ∧
    ProgressSynced (exitGame s now) := by
  refine ⟨?_, ?_, ?_, ?_⟩
  · intro hs
    by_cases h : s.game.currentIndex < (s.game.playlist.length : Int) - 1
    · rw [nextQuestion_eq_pos s now h]
      exact ⟨StorageManager.progressJ s.game.playlist (s.game.currentIndex + 1)
          s.selectedIndices now,
        loadProgress_saveProgress s.store s.activeBook.id _ _ _ _,
        getField_progressJ_playlist _ _ _ _,
        getField_progressJ_currentIndex _ _ _ _⟩
    · rw [nextQuestion_eq_neg s now h]
      exact hs
  · intro hs
    by_cases h : 0 < s.game.currentIndex
    · rw [prevQuestion_eq_pos s now h]
      exact ⟨StorageManager.progressJ s.game.playlist (s.game.currentIndex - 1)
          s.selectedIndices now,
        loadProgress_saveProgress s.store s.activeBook.id _ _ _ _,
        getField_progressJ_playlist _ _ _ _,
        getField_progressJ_currentIndex _ _ _ _⟩
    · rw [prevQuestion_eq_neg s now h]
      exact hs
  · intro hne
    have hlen : ¬ s.selectedIndices.length = 0 := fun h0 => hne (List.length_eq_zero.mp h0)
    rw [startGame_false_eq, startGameFresh_eq_pos s now rand hlen]
    exact ⟨StorageManager.progressJ
        (shuffle rand (s.selectedIndices.map (fun idx => jsGet s.activeBook.words idx))) 0
        s.selectedIndices now,
      loadProgress_saveProgress _ s.activeBook.id _ _ _ _,
      getField_progressJ_playlist _ _ _ _,
      getField_progressJ_currentIndex _ _ _ _⟩
  · rw [exitGame_eq]
    refine ⟨StorageManager.progressJ s.game.playlist s.game.currentIndex s.selectedIndices now,
      ?_, ?_, ?_⟩
    · rw [(updateWelcomeUI_proj _ _).1, (updateWelcomeUI_proj _ _).2.2.1]
      exact loadProgress_saveProgress s.store s.activeBook.id _ _ _ _
    · rw [(updateWelcomeUI_proj _ _).2.1]
      exact getField_progressJ_playlist _ _ _ _
    · rw [(updateWelcomeUI_proj _ _).2.1]
      exact getField_progressJ_currentIndex _ _ _ _

/-- Witness for C1 on a concrete saved one-card session and a concrete
two-element selection. -/
theorem claim_C1_witness :
    ProgressSynced wStateSynced ∧ wStateSel.selectedIndices ≠ [] ∧
    ProgressSynced (nextQuestion wStateSynced 8) ∧
    ProgressSynced (prevQuestion wStateSynced 8) ∧
    ProgressSynced (startGame wStateSel false 8 (fun _ => 0)) ∧
    ProgressSynced (exitGame wStateSynced 8) := by
  have hs : ProgressSynced wStateSynced :=
    ⟨StorageManager.progressJ [JVal.str "w0"] 0 [0] 7,
      loadProgress_saveProgress Store.empty "bk" [JVal.str "w0"] 0 [0] 7, rfl, rfl⟩
  have hne : wStateSel.selectedIndices ≠ [] := by decide
  exact ⟨hs, hne,
    (claim_C1_progress_persistence wStateSynced 8 (fun _ => 0)).1 hs,
    (claim_C1_progress_persistence wStateSynced 8 (fun _ => 0)).2.1 hs,
    (claim_C1_progress_persistence wStateSel 8 (fun _ => 0)).2.2.1 hne,
    (claim_C1_progress_persistence wStateSynced 8 (fun _ => 0)).2.2.2⟩

/-- C2: a new-game start on a non-empty selection of distinct in-range
indices produces a playlist that is a permutation of the selected words
(same multiset, so also the same length as the selection) and sets the
cursor to zero; the random stream hypothesis states that each draw is in
its range, as Math.random guarantees. -/
theorem claim_C2_build_permutation (s : AppState) (now : Int) (rand : Nat → Nat)
    (hne : s.selectedIndices ≠ []) (_hnd : s.selectedIndices.Nodup)
    (_hrange : ∀ i ∈ s.selectedIndices, i < s.activeBook.words.length)
    (hrand : ∀ i, rand i ≤ i) :
    ((startGame s false now rand).game.playlist).Perm
        (s.selectedIndices.map (fun idx => jsGet s.activeBook.words idx)) ∧
    (startGame s false now rand).game.playlist.length = s.selectedIndices.length ∧
    (startGame s false now rand).game.currentIndex = 0 := by
  have hlen : ¬ s.selectedIndices.length = 0 := fun h0 => hne (List.length_eq_zero.mp h0)
  rw [startGame_false_eq, startGameFresh_eq_pos s now rand hlen]
  have hp : (shuffle rand (s.selectedIndices.map (fun idx => jsGet s.activeBook.words idx))).Perm
      (s.selectedIndices.map (fun idx => jsGet s.activeBook.words idx)) :=
    shuffleLoop_perm rand _ _ (Nat.le_refl _) (fun i _ => hrand i)
  refine ⟨hp, ?_, rfl⟩
  show (shuffle rand (s.selectedIndices.map (fun idx => jsGet s.activeBook.words idx))).length
    = s.selectedIndices.length
  rw [hp.length_eq, List.length_map]

/-- Witness for C2 on the concrete two-element selection. -/
theorem claim_C2_witness :
    wStateSel.selectedIndices ≠ [] ∧ wStateSel.selectedIndices.Nodup ∧
    (∀ i ∈ wStateSel.selectedIndices, i < wStateSel.activeBook.words.length) ∧
    ((startGame wStateSel false 3 (fun _ => 0)).game.playlist).Perm
        (wStateSel.selectedIndices.map (fun idx => jsGet wStateSel.activeBook.words idx)) ∧
    (startGame wStateSel false 3 (fun _ => 0)).game.currentIndex = 0 := by
  refine ⟨by decide, by decide, by decide, ?_, ?_⟩
  · exact (claim_C2_build_permutation wStateSel 3 (fun _ => 0) (by decide) (by decide)
      (by decide) (fun i => Nat.zero_le i)).1
  · exact (claim_C2_build_permutation wStateSel 3 (fun _ => 0) (by decide) (by decide)
      (by decide) (fun i => Nat.zero_le i)).2.2

/-- C4: the advance never moves the cursor past the last playlist index
and is a quiet no-op at the last index (no state change, hence no
persistence and no error); the retreat never moves the cursor below zero
and is a no-op at zero. -/
theorem claim_C4_cursor_bounds (s : AppState) (now : Int) :
    (s.game.currentIndex ≤ (s.game.playlist.length : Int) - 1 →
      (nextQuestion s now).game.currentIndex ≤ (s.game.playlist.length : Int) - 1) ∧
    (s.game.currentIndex = (s.game.playlist.length : Int) - 1 → nextQuestion s now = s) ∧
    (0 ≤ s.game.currentIndex → 0 ≤ (prevQuestion s now).game.currentIndex) ∧
    (s.game.currentIndex = 0 → prevQuestion s now = s) := by
  refine ⟨?_, ?_, ?_, ?_⟩
  · intro hle
    by_cases h : s.game.currentIndex < (s.game.playlist.length : Int) - 1
    · rw [nextQuestion_eq_pos s now h]
      show s.game.currentIndex + 1 ≤ (s.game.playlist.length : Int) - 1
      omega
    · rw [nextQuestion_eq_neg s now h]
      omega
  · intro heq
    exact nextQuestion_eq_neg s now (by omega)
  · intro h0
    by_cases h : 0 < s.game.currentIndex
    · rw [prevQuestion_eq_pos s now h]
      show 0 ≤ s.game.currentIndex - 1
      omega
    · rw [prevQuestion_eq_neg s now h]
      omega
  · intro heq
    exact prevQuestion_eq_neg s now (by omega)

/-- Witness for C4 on a concrete active session sitting on the last (and
only) card. -/
theorem claim_C4_witness :
    wStateSynced.game.currentIndex ≤ (wStateSynced.game.playlist.length : Int) - 1 ∧
    (nextQuestion wStateSynced 9).game.currentIndex
      ≤ (wStateSynced.game.playlist.length : Int) - 1 ∧
    nextQuestion wStateSynced 9 = wStateSynced ∧
    0 ≤ (prevQuestion wStateSynced 9).game.currentIndex ∧
    prevQuestion wStateSynced 9 = wStateSynced :=
  ⟨by decide,
    (claim_C4_cursor_bounds wStateSynced 9).1 (by decide),
    (claim_C4_cursor_bounds wStateSynced 9).2.1 (by decide),
    (claim_C4_cursor_bounds wStateSynced 9).2.2.1 (by decide),
    (claim_C4_cursor_bounds wStateSynced 9).2.2.2 (by decide)⟩

/-- C5: the released-gesture decision, as a pure function of origin and
release abscissas and the game position: a displacement whose magnitude
is below the threshold of 100 units always resets; past the threshold a
rightward displacement commits an advance exactly when the cursor is not
on the last index and a leftward one commits a retreat exactly when the
cursor is positive, resetting otherwise; being a function into single
commands, each released gesture yields at most one navigation command. -/
theorem claim_C5_swipe_threshold (startX endX currentIndex : Int) (playlistLen : Nat) :
    (|endX - startX| < 100 →
      swipeDecision startX endX currentIndex playlistLen = SwipeCmd.reset) ∧
    (100 < endX - startX → currentIndex < (playlistLen : Int) - 1 →
      swipeDecision startX endX currentIndex playlistLen = SwipeCmd.advance) ∧
    (100 < endX - startX → ¬ currentIndex < (playlistLen : Int) - 1 →
      swipeDecision startX endX currentIndex playlistLen = SwipeCmd.reset) ∧
    (endX - startX < -100 → 0 < currentIndex →
      swipeDecision startX endX currentIndex playlistLen = SwipeCmd.retreat) ∧
    (endX - startX < -100 → ¬ 0 < currentIndex →
      swipeDecision startX endX currentIndex playlistLen = SwipeCmd.reset) := by
  simp only [swipeDecision]
  have hub := le_abs_self (endX - startX)
  have hlb := neg_abs_le (endX - startX)
  refine ⟨?_, ?_, ?_, ?_, ?_⟩
  · intro h
    rw [if_neg (by omega)]
  · intro h1 h2
    rw [if_pos (by omega), if_pos (by omega), if_pos h2]
  · intro h1 h2
    rw [if_pos (by omega), if_pos (by omega), if_neg h2]
  · intro h1 h2
    rw [if_pos (by omega), if_neg (by omega), if_pos h2]
  · intro h1 h2
    rw [if_pos (by omega), if_neg (by omega), if_neg h2]

/-- Witness for C5 on the concrete gestures of the spec scenarios. -/
theorem claim_C5_witness :
    swipeDecision 0 150 0 3 = SwipeCmd.advance ∧
    swipeDecision 0 40 0 3 = SwipeCmd.reset ∧
    swipeDecision 0 (-150) 2 3 = SwipeCmd.retreat ∧
    swipeDecision 0 150 2 3 = SwipeCmd.reset ∧
    swipeDecision 0 (-150) 0 3 = SwipeCmd.reset :=
  ⟨(claim_C5_swipe_threshold 0 150 0 3).2.1 (by decide) (by decide),
    (claim_C5_swipe_threshold 0 40 0 3).1 (by decide),
    (claim_C5_swipe_threshold 0 (-150) 2 3).2.2.2.1 (by decide) (by decide),
    (claim_C5_swipe_threshold 0 150 2 3).2.2.1 (by decide) (by decide),
    (claim_C5_swipe_threshold 0 (-150) 0 3).2.2.2.2 (by decide) (by decide)⟩

theorem jsTruthy_of_isArr (v : JVal) (h : v.isArr = true) : v.jsTruthy = true := by
  cases v <;> simp_all [JVal.isArr, JVal.jsTruthy]

/-- C6: a resume start installs the loaded record verbatim when one
validates, and otherwise raises the resume-unavailable alert and falls
back to running the new-game branch on the same session, so a rejected
resume never strands the user without the fresh-start path running. -/
theorem claim_C6_resume_fallback (s : AppState) (now : Int) (rand : Nat → Nat) :
    (∀ v, StorageManager.loadProgress s.store s.activeBook.id = some v →
      startGame s true now rand =
        { s with
            game := { active := true,
                      playlist := (v.getField "playlist").arrElems,
                      currentIndex := (v.getField "currentIndex").asInt },
            selectedIndices := dedupFirst (v.getField "originalIndices").natElems }) ∧
    (StorageManager.loadProgress s.store s.activeBook.id = none →
      startGame s true now rand =
        startGameFresh { s with game := { s.game with active := true },
                                alerts := s.alerts ++ [resumeFailAlert] } now rand ∧
      (startGame s true now rand).alerts = s.alerts ++ [resumeFailAlert]) := by
  constructor
  · intro v h
    exact startGame_true_some s now rand v h
  · intro h
    refine ⟨startGame_true_none s now rand h, ?_⟩
    rw [startGame_true_none s now rand h, startGameFresh_alerts]

/-- Witness for C6: a session with saved progress resumes it verbatim,
and a session with an empty store falls back with the alert raised. -/
theorem claim_C6_witness :
    StorageManager.loadProgress wStateSynced.store wStateSynced.activeBook.id
      = some (StorageManager.progressJ [JVal.str "w0"] 0 [0] 7) ∧
    startGame wStateSynced true 4 (fun _ => 0) =
      { wStateSynced with
          game := { active := true,
                    playlist := ((StorageManager.progressJ [JVal.str "w0"] 0 [0] 7).getField
                      "playlist").arrElems,
                    currentIndex := ((StorageManager.progressJ [JVal.str "w0"] 0 [0] 7).getField
                      "currentIndex").asInt },
          selectedIndices := dedupFirst ((StorageManager.progressJ [JVal.str "w0"] 0 [0]
            7).getField "originalIndices").natElems } ∧
    StorageManager.loadProgress wStateSel.store wStateSel.activeBook.id = none ∧
    (startGame wStateSel true 4 (fun _ => 0)).alerts = wStateSel.alerts ++ [resumeFailAlert] := by
  have h1 : StorageManager.loadProgress wStateSynced.store wStateSynced.activeBook.id
      = some (StorageManager.progressJ [JVal.str "w0"] 0 [0] 7) :=
    loadProgress_saveProgress Store.empty "bk" [JVal.str "w0"] 0 [0] 7
  have h2 : StorageManager.loadProgress wStateSel.store wStateSel.activeBook.id = none := rfl
  exact ⟨h1, (claim_C6_resume_fallback wStateSynced 4 (fun _ => 0)).1 _ h1, h2,
    ((claim_C6_resume_fallback wStateSel 4 (fun _ => 0)).2 h2).2⟩

/-- C7: loadProgress returns a record exactly when the slot holds a
payload that parses as that JSON value, whose playlist field is an array
and whose currentIndex field is numeric; in every other case (absent key,
malformed payload, or failed validation) it returns none, and being a
total function it never throws. -/
theorem claim_C7_load_contract (st : Store) (bookId : String) (v : JVal) :
    StorageManager.loadProgress st bookId = some v ↔
      (st (StorageManager.getStorageKey bookId) = some (Payload.json v) ∧
        (v.getField "playlist").isArr = true ∧ (v.getField "currentIndex").isNum = true) := by
  unfold StorageManager.loadProgress
  cases hslot : st (StorageManager.getStorageKey bookId) with
  | none => simp
  | some p =>
    cases p with
    | malformed => simp
    | json data =>
      cases data
      case obj fields =>
        by_cases ha : ((JVal.obj fields).getField "playlist").isArr = true
        · have ht := jsTruthy_of_isArr _ ha
          by_cases hn : ((JVal.obj fields).getField "currentIndex").isNum = true
          · simp only [ht, ha, hn, Bool.not_true, Bool.false_eq_true, if_false]
            constructor
            · intro h
              obtain rfl := Option.some.inj h
              exact ⟨rfl, ha, hn⟩
            · rintro ⟨hv, _, _⟩
              have hv2 := Option.some.inj hv
              injection hv2 with hv3
              rw [hv3]
          · have hn2 : ((JVal.obj fields).getField "currentIndex").isNum = false := by
              simp only [Bool.not_eq_true] at hn
              exact hn
            simp only [ht, ha, hn2, Bool.not_true, Bool.not_false, Bool.false_eq_true, if_false,
              if_true]
            constructor
            · intro h
              exact absurd h (by simp)
            · rintro ⟨hv, _, hnum⟩
              have hv2 := Option.some.inj hv
              injection hv2 with hv3
              rw [← hv3] at hnum
              rw [hnum] at hn2
              exact absurd hn2 (by simp)
        · have ha2 : ((JVal.obj fields).getField "playlist").isArr = false := by
            simp only [Bool.not_eq_true] at ha
            exact ha
          constructor
          · intro h
            by_cases ht : ((JVal.obj fields).getField "playlist").jsTruthy = true
            · simp only [ht, ha2, Bool.not_true, Bool.not_false, Bool.false_eq_true, if_false,
                if_true] at h
              exact absurd h (by simp)
            · have ht2 : ((JVal.obj fields).getField "playlist").jsTruthy = false := by
                simp only [Bool.not_eq_true] at ht
                exact ht
              simp only [ht2, Bool.not_false, if_true] at h
              exact absurd h (by simp)
          · rintro ⟨hv, harr, _⟩
            have hv2 := Option.some.inj hv
            injection hv2 with hv3
            rw [← hv3] at harr
            rw [harr] at ha2
            exact absurd ha2 (by simp)
      all_goals
        refine ⟨fun h => absurd h (by simp [JVal.getField, JVal.jsTruthy]), ?_⟩
      all_goals
        rintro ⟨hv, harr, _⟩
      all_goals
        have hv2 := Option.some.inj hv
      all_goals
        injection hv2 with hv3
      all_goals
        rw [← hv3] at harr
      all_goals
        simp [JVal.getField, JVal.isArr] at harr

/-- Witness for C7: a slot written by saveProgress loads back, and the
empty store loads nothing. -/
theorem claim_C7_witness :
    StorageManager.loadProgress (StorageManager.saveProgress Store.empty "bk"
        [JVal.str "w0"] 0 [0] 7) "bk"
      = some (StorageManager.progressJ [JVal.str "w0"] 0 [0] 7) :=
  (claim_C7_load_contract (StorageManager.saveProgress Store.empty "bk" [JVal.str "w0"] 0 [0] 7)
      "bk" (StorageManager.progressJ [JVal.str "w0"] 0 [0] 7)).mpr ⟨rfl, rfl, rfl⟩

theorem parseStep_zero_init (l : String) :
    CSVFetcher.parseStep ([], none) (0, l) = ([], titleOfLine l) := by
  unfold CSVFetcher.parseStep titleOfLine
  dsimp only
  by_cases h : ((l.splitOn ",")[0]?.getD "").trim = ""
  · rw [if_pos h, if_pos h]
  · rw [if_neg h, if_neg h, if_pos rfl]
    by_cases hh : isHeaderToken (((l.splitOn ",")[0]?.getD "").trim) = true
    · have hA : ¬ ((((l.splitOn ",")[0]?.getD "").trim.toLower ≠ "term" ∧
          (((l.splitOn ",")[0]?.getD "").trim).toLower ≠ "word" ∧
          ¬ strIncludes (((l.splitOn ",")[0]?.getD "").trim).toLower "題目" ∧
          ¬ strIncludes (((l.splitOn ",")[0]?.getD "").trim).toLower "content")) := by
        simp only [isHeaderToken, Bool.or_eq_true, decide_eq_true_eq] at hh
        tauto
      rw [if_neg hA, if_pos hh]
    · have hh2 := hh
      simp only [isHeaderToken, Bool.or_eq_true, decide_eq_true_eq, not_or] at hh2
      rw [if_pos (by tauto), if_neg hh]

/-- C8: the parser treats the first non-empty line as the book title
unless its first field is empty (skipped row) or case-insensitively
matches a known header token, never emits the first non-empty line as a
word, and maps each later non-empty line to one word from its first two
comma-delimited fields, a missing second field yielding an empty zhuyin
and a missing or empty first field skipping the row; formalized as the
equality of the source parser with the model written from those
clauses. -/
theorem claim_C8_parse_contract (csvText : String) :
    CSVFetcher.parse csvText = parseSpecModel csvText := by
  have key : ∀ L : List String, L.enum.foldl CSVFetcher.parseStep ([], none)
      = (match L with
         | [] => (([] : List Word), (none : Option String))
         | l0 :: rest => (rest.filterMap rowWord, titleOfLine l0)) := by
    intro L
    cases L with
    | nil => rfl
    | cons l0 rest =>
      rw [List.enum_cons, List.foldl_cons, parseStep_zero_init,
        foldl_parseStep_from_one rest 1 _ (Nat.le_refl 1)]
      simp
  simp only [CSVFetcher.parse, parseSpecModel]
  rw [key]
  cases (splitJsLines csvText).filter (fun line => line.trim ≠ "") with
  | nil => rfl
  | cons l0 rest => rfl

/-- C9: loadProgress performs no range check on the stored cursor: a
stored record with a two-element playlist array and a numeric cursor of
five is returned as valid progress, and resuming installs it unchanged,
so after the resume the active-session invariant of a cursor inside the
playlist bounds fails. -/
theorem claim_C9_out_of_range_resume :
    StorageManager.loadProgress outOfRangeStore "b" = some outOfRangeRecord ∧
    (startGame outOfRangeState true 0 (fun _ => 0)).game.currentIndex = 5 ∧
    (startGame outOfRangeState true 0 (fun _ => 0)).game.playlist.length = 2 ∧
    ¬ (0 ≤ (startGame outOfRangeState true 0 (fun _ => 0)).game.currentIndex ∧
        (startGame outOfRangeState true 0 (fun _ => 0)).game.currentIndex
          < ((startGame outOfRangeState true 0 (fun _ => 0)).game.playlist.length : Int)) := by
  have h1 : StorageManager.loadProgress outOfRangeStore "b" = some outOfRangeRecord := rfl
  have h2 : (startGame outOfRangeState true 0 (fun _ => 0)).game.currentIndex = 5 := rfl
  have h3 : (startGame outOfRangeState true 0 (fun _ => 0)).game.playlist.length = 2 := rfl
  refine ⟨h1, h2, h3, ?_⟩
  rintro ⟨_, hlt⟩
  rw [h2, h3] at hlt
  omega

/-- C10: a new-game start on an empty selection leaves the persisted
record, the in-memory playlist and the cursor unchanged, but the active
flag has already been set before the guard, so even the rejected start
leaves the session flagged active. -/
theorem claim_C10_empty_selection_flips_active (s : AppState) (now : Int) (rand : Nat → Nat)
    (h : s.selectedIndices = []) :
    startGame s false now rand = { s with game := { s.game with active := true } } := by
  rw [startGame_false_eq]
  exact startGameFresh_eq_zero s now rand (by rw [h]; rfl)

/-- Witness for C10 on the concrete empty-selection session, whose game
was inactive before the rejected start and is flagged active after it. -/
theorem claim_C10_witness :
    wStateEmptySel.selectedIndices = [] ∧
    startGame wStateEmptySel false 0 (fun _ => 0)
      = { wStateEmptySel with game := { wStateEmptySel.game with active := true } } ∧
    wStateEmptySel.game.active = false ∧
    (startGame wStateEmptySel false 0 (fun _ => 0)).game.active = true :=
  ⟨rfl, claim_C10_empty_selection_flips_active wStateEmptySel 0 (fun _ => 0) rfl, rfl, rfl⟩
